import Mathlib

/-!
Shallow embedding of the rs-wineventlog repository (a Windows event-log
monitor and exporter) and verification of its specification claims.

The embedding follows the source files:
  * `src/xml.rs`       — the generic XML-to-JSON transcoder,
  * `src/eventlog.rs`  — channel resolution, the subscription worker's
    drain loop, event rendering and metadata enrichment,
  * `src/privilege.rs` — the privilege-escalation policy,
  * `src/config.rs`    — the configuration structure.

OS calls (XML parsing, `EvtNext`, `EvtFormatMessage`, `ShellExecuteW`) are
modelled as oracles/parameters; the Rust control flow around them is
translated directly.
-/

namespace WinEventLog

/-- A JSON value as used by the program (`serde_json::Value` restricted to
the shapes `element_to_json` produces: strings, arrays, objects).  An
object is an association list; key order is an implementation detail the
program's spec declares insignificant, and here it is the insertion
order with in-place replacement (a determinization of the source's map
types). -/
inductive Json where
  | str : String → Json
  | arr : List Json → Json
  | obj : List (String × Json) → Json
deriving Repr

/-- Look a key up in an object's association list (first binding wins;
bindings built by `insertKV` have distinct keys). -/
def lookupKV : List (String × Json) → String → Option Json
  | [], _ => none
  | (k', v) :: rest, k => if k' = k then some v else lookupKV rest k

/-- Shallow `Map::contains_key`. -/
def containsKV (m : List (String × Json)) (k : String) : Bool :=
  (lookupKV m k).isSome

/-- Shallow `Map::insert`: replace the binding in place if the key is present,
otherwise append a new binding. -/
def insertKV : List (String × Json) → String → Json → List (String × Json)
  | [], k, v => [(k, v)]
  | (k', v') :: rest, k, v =>
    if k' = k then (k', v) :: rest else (k', v') :: insertKV rest k v

/-- The keys of an object, in order. -/
def keysOf (m : List (String × Json)) : List String := m.map Prod.fst

/-- Shallow `Value::get` on a JSON value (`None` unless it is an object holding
the key). -/
def Json.get : Json → String → Option Json
  | .obj m, k => lookupKV m k
  | _, _ => none

/-- Shallow `Value::as_str`. -/
def Json.asStr : Json → Option String
  | .str s => some s
  | _ => none

/-- An XML element node as the transcoder sees it (`roxmltree::Node`
restricted to what `element_to_json` consumes): tag name, attributes in
document order, element children in document order, and `node.text()`
(the leading text content, if any). -/
inductive XmlNode where
  | node : String → List (String × String) → List XmlNode → Option String → XmlNode

def XmlNode.tag : XmlNode → String
  | .node t _ _ _ => t

def XmlNode.attrs : XmlNode → List (String × String)
  | .node _ a _ _ => a

def XmlNode.children : XmlNode → List XmlNode
  | .node _ _ c _ => c

def XmlNode.text : XmlNode → Option String
  | .node _ _ _ t => t

/-- Rust `str::trim`: drop whitespace from both ends (defined over the
character list so that it computes; the ASCII whitespace set suffices
for the inputs considered here). -/
def rsTrim (s : String) : String :=
  ⟨((s.data.dropWhile Char.isWhitespace).reverse.dropWhile
      Char.isWhitespace).reverse⟩

/-- Rust `str::contains(char)` (defined over the character list so that
it computes). -/
def rsContains (s : String) (c : Char) : Bool :=
  s.data.contains c

/-- The tag names of a pair list in first-occurrence order (the key set
of the source's `HashMap` grouping; the source iterates that map in an
unspecified order, determinized here to first occurrence). -/
def firstKeys : List String → List String
  | [] => []
  | x :: xs => x :: (firstKeys xs).filter (fun y => y ≠ x)

/-- Group tagged values by tag: each tag of the input, once, paired with
all its values in input (document) order.  Mirrors the
`HashMap<String, Vec<JsonValue>>` built in `element_to_json`. -/
def groupByTag (ps : List (String × Json)) : List (String × List Json) :=
  (firstKeys (ps.map Prod.fst)).map
    (fun k => (k, (ps.filter (fun p => p.1 = k)).map Prod.snd))

/-- The merge rule of `element_to_json`: a group of exactly one child
maps to the bare sub-tree, any other size to an array. -/
def mergeGroup : List Json → Json
  | [v] => v
  | vs => .arr vs

/-- The attribute map of an element: each attribute becomes an
`@`-prefixed string field, in document order. -/
def attrMap (attrs : List (String × String)) : List (String × Json) :=
  attrs.foldl (fun m kv => insertKV m ("@" ++ kv.1) (.str kv.2)) []

mutual

/-- The transcoder `element_to_json` (src/xml.rs:14-49): attributes become `@`-prefixed
string fields; element children are grouped by tag with the merge rule;
a node with no element children and non-empty trimmed text collapses to
that string (dropping the attribute map); otherwise the object is
returned. -/
def element_to_json : XmlNode → Json
  | .node _tag attrs children text =>
    let m := (groupByTag (childPairs children)).foldl
      (fun m kv => insertKV m kv.1 (mergeGroup kv.2)) (attrMap attrs)
    let txt := rsTrim (text.getD "")
    if children.isEmpty && !(txt == "") then .str txt
    else .obj m

/-- The element children of a node, each paired with its tag name and
transcoded sub-tree, in document order. -/
def childPairs : List XmlNode → List (String × Json)
  | [] => []
  | c :: cs => (c.tag, element_to_json c) :: childPairs cs

end

/-- The entry point `parse_to_json` (src/xml.rs:5-12), with the parser as an oracle: the
document's root element (or `none` on a parse failure).  The value
transcoded is the root element's first element child if one exists,
otherwise the root element itself. -/
def parse_to_json : Option XmlNode → Option Json
  | none => none
  | some root => some (element_to_json (root.children.head?.getD root))

/-! ## Metadata enrichment (src/eventlog.rs:228-281) -/

/-- The `EVT_FORMAT_MESSAGE_FLAGS` values `enrich_metadata` uses. -/
inductive FmtFlag where
  | keyword | level | task | opcode
deriving DecidableEq

/-- The key/flag table of `enrich_metadata` (src/eventlog.rs:231-236). -/
def enrichKeys : List (String × FmtFlag) :=
  [("Keywords", .keyword), ("Level", .level), ("Task", .task),
   ("Opcode", .opcode)]

/-- One step of `enrich_metadata`'s loop body: if the object holds the
key, ask the formatter (an oracle standing for `format_message`, which
returns `None` both when the sizing call reports no text and when the
formatting call fails); on `some s` replace the value, otherwise leave
the object unchanged. -/
def enrichStep (fmt : FmtFlag → Option String) (m : List (String × Json))
    (kf : String × FmtFlag) : List (String × Json) :=
  if containsKV m kf.1 then
    match fmt kf.2 with
    | some s => insertKV m kf.1 (.str s)
    | none => m
  else m

/-- The fold of `enrich_metadata` over its key/flag table. -/
def enrichObj (fmt : FmtFlag → Option String)
    (m : List (String × Json)) : List (String × Json) :=
  enrichKeys.foldl (enrichStep fmt) m

/-- The enricher `enrich_metadata` (src/eventlog.rs:228-245): on an object, run the
four enrichment steps in order; any other JSON value is untouched. -/
def enrich_metadata (fmt : FmtFlag → Option String) : Json → Json
  | .obj m => .obj (enrichObj fmt m)
  | j => j

/-- The record transform `render_event` applies after a successful
parse (src/eventlog.rs:199-215): read the provider name from the
pre-enrichment record at `Provider.@Name`, run `enrich_metadata`, then
on a successful provider-message format (`fmtMsg`, standing for
`format_event_message`) insert a top-level `Message` field. -/
def enrichPipeline (fmt : FmtFlag → Option String)
    (fmtMsg : String → Option String) (v : Json) : Json :=
  let provider_name :=
    ((v.get "Provider").bind (fun p => p.get "@Name")).bind Json.asStr
  let v' := enrich_metadata fmt v
  match provider_name with
  | some prov =>
    match fmtMsg prov with
    | some msg =>
      match v' with
      | .obj m => Json.obj (insertKV m "Message" (.str msg))
      | j => j
    | none => v'
  | none => v'

/-- The renderer `render_event` (src/eventlog.rs:170-226), with the OS rendering and
parsing collapsed into the `doc` argument (`none` = rendering or parsing
failed) and `fmt` standing for `format_message` on this event. -/
def render_event (fmt : FmtFlag → Option String)
    (fmtMsg : String → Option String) (doc : Option XmlNode) :
    Option Json :=
  match parse_to_json doc with
  | none => none
  | some v => some (enrichPipeline fmt fmtMsg v)

/-! ## Channel resolution (src/eventlog.rs:38-88) -/

/-- A pattern is treated as a glob iff it contains `*` or `?`
(src/eventlog.rs:47). -/
def isGlobPattern (p : String) : Bool :=
  rsContains p '*' || rsContains p '?'

/-- Channel resolution inside `monitor` (src/eventlog.rs:45-64): fold
over the configured patterns, a glob pattern appending every live
channel it matches (in live-list order, `gm` standing for the
`glob_match` crate), a literal pattern appending itself iff present
verbatim in the live list. -/
def resolveChannels (gm : String → String → Bool) (available : List String)
    (patterns : List String) : List String :=
  patterns.foldl
    (fun acc p =>
      if isGlobPattern p then acc ++ available.filter (gm p)
      else if available.contains p then acc ++ [p]
      else acc) []

/-- What a pattern contributes to the resolved list, stated from the
spec's words (each glob contributes the live channels it matches, each
literal contributes itself iff present verbatim). -/
def contribSpec (gm : String → String → Bool) (available : List String)
    (p : String) : List String :=
  if isGlobPattern p then available.filter (gm p)
  else if available.contains p then [p]
  else []

/-- Outcome of `monitor` before the drain loops run (src/eventlog.rs:66-88):
either the fatal empty-resolution error, or the list of channels for
which worker threads are spawned (one per list element, in order). -/
inductive MonitorResult where
  | err : String → MonitorResult
  | ok : List String → MonitorResult
deriving DecidableEq

/-- The orchestrator `monitor` (src/eventlog.rs:38-88) up to worker spawning: resolve the
patterns; if nothing resolved return the error, otherwise spawn one
worker per resolved entry. -/
def monitor (gm : String → String → Bool) (available : List String)
    (patterns : List String) : MonitorResult :=
  let valid := resolveChannels gm available patterns
  if valid.isEmpty then .err "No valid channels to subscribe to"
  else .ok valid

/-- The channels for which workers were spawned (none on the error
path). -/
def spawnedWorkers : MonitorResult → List String
  | .err _ => []
  | .ok l => l

/-! ## The subscription worker (src/eventlog.rs:90-168) -/

/-- The `INFINITE` constant of the Windows threading API. -/
def INFINITE : Nat := 0xFFFFFFFF

/-- The request-shaped part of one `EvtNext` call: the size of the
handle array offered and the timeout passed. -/
structure EvtNextCall where
  arraySize : Nat
  timeout : Nat
deriving DecidableEq

/-- The event-array size of the drain loop's `EvtNext` request
(src/eventlog.rs:136: `[EVT_HANDLE::default(); 10]`). -/
def drainArraySize : Nat := 10

/-- The timeout the drain loop passes to `EvtNext`
(src/eventlog.rs:142). -/
def drainTimeout : Nat := INFINITE

/-- The `EvtNext` request issued by every iteration of the drain loop. -/
def drainRequest : EvtNextCall := ⟨drainArraySize, drainTimeout⟩

/-- Whether an `EvtNext` outcome keeps the drain loop going
(src/eventlog.rs:142-143: the call returned ok and `returned > 0`).
An outcome is `none` for a failed call, `some evs` for a successful
call returning the handles `evs`. -/
def batchContinues : Option (List Nat) → Bool
  | some evs => !evs.isEmpty
  | none => false

/-- The `EvtNext` requests the drain loop issues, given the stream of
successive `EvtNext` outcomes the OS would supply: one request per
iteration, stopping after the first failed or empty outcome. -/
def drainCalls : List (Option (List Nat)) → List EvtNextCall
  | [] => []
  | r :: rest =>
    drainRequest :: (if batchContinues r then drainCalls rest else [])

/-- The event batches the drain loop processes, in order. -/
def drainBatches : List (Option (List Nat)) → List (List Nat)
  | [] => []
  | r :: rest =>
    if batchContinues r then r.getD [] :: drainBatches rest else []

/-- An observable step of one iteration of the worker's outer loop. -/
inductive WorkerStep where
  | waitSignal (timeout : Nat)
  | evtNext (c : EvtNextCall)
  | processBatch (evs : List Nat)
  | resetSignal
deriving DecidableEq

/-- The steps of the inner drain loop (src/eventlog.rs:135-162). -/
def drainTrace : List (Option (List Nat)) → List WorkerStep
  | [] => []
  | r :: rest =>
    .evtNext drainRequest ::
      (if batchContinues r then .processBatch (r.getD []) :: drainTrace rest
       else [])

/-- One iteration of the worker's outer loop (src/eventlog.rs:129-167):
block on the signal with an infinite wait, run the drain loop, then
reset the manual-reset signal. -/
def iterationTrace (rs : List (Option (List Nat))) : List WorkerStep :=
  .waitSignal INFINITE :: (drainTrace rs ++ [.resetSignal])

/-- Outcome of `EvtSubscribe` as `monitor_channel` distinguishes them
(src/eventlog.rs:99-127). -/
inductive SubscribeOutcome where
  | ok
  | errNotSupported
  | errAccessDenied
  | errOther (msg : String)
deriving DecidableEq

/-- An observable action of `monitor_channel`'s subscription phase. -/
inductive WorkerAction where
  | trySubscribe
  | invokeElevate
  | exitProcess (code : Nat)
  | enterDrainLoop
  | returnOk
  | returnErr (msg : String)
deriving DecidableEq

/-- The subscription phase of `monitor_channel` (src/eventlog.rs:99-127):
one `EvtSubscribe` attempt, then per outcome: proceed to the drain loop;
silently return `Ok(())` on an unsupported channel; on access denied
call `privilege::try_elevate` (its result discarded, which is why the
`elevateOk` argument is unused) and `std::process::exit(1)`; propagate
any other error.  There is no second subscription attempt on any
path. -/
def subscribePhase (r : SubscribeOutcome) (elevateOk : Bool) :
    List WorkerAction :=
  let _ := elevateOk
  WorkerAction.trySubscribe ::
    match r with
    | .ok => [.enterDrainLoop]
    | .errNotSupported => [.returnOk]
    | .errAccessDenied => [.invokeElevate, .exitProcess 1]
    | .errOther m => [.returnErr m]

/-- How the per-batch `for` loop ends (src/eventlog.rs:145-157). -/
inductive DrainExit where
  | continueDrain
  | stoppedOk
deriving DecidableEq

/-- What the per-batch `for` loop did: events whose line was written,
event handles closed, and how it ended. -/
structure BatchOutcome where
  written : List Nat
  closed : List Nat
  exit : DrainExit
deriving DecidableEq

/-- The per-batch `for` loop of `monitor_channel` (src/eventlog.rs:145-157):
for each event handle in order, render it (`render` is whether
`render_event` yields a record); on a record, write one line (`writeOk`
is whether the `writeln!` succeeds); on a failed write, close the
current event handle and return `Ok(())` immediately, leaving the rest
of the batch unprocessed; otherwise close the handle and continue. -/
def processBatch (render writeOk : Nat → Bool) : List Nat → BatchOutcome
  | [] => ⟨[], [], .continueDrain⟩
  | ev :: rest =>
    if render ev then
      if writeOk ev then
        let o := processBatch render writeOk rest
        ⟨ev :: o.written, ev :: o.closed, o.exit⟩
      else ⟨[], [ev], .stoppedOk⟩
    else
      let o := processBatch render writeOk rest
      ⟨o.written, ev :: o.closed, o.exit⟩

/-! ## Privilege escalation (src/privilege.rs) -/

/-- The argument string `try_elevate` rebuilds from the current
process's arguments (src/privilege.rs:15-27): space-joined, with any
argument containing a space wrapped in double quotes. -/
def buildElevateArgs (args : List String) : String :=
  args.foldl
    (fun acc a =>
      let acc := if acc.isEmpty then acc else acc.push ' '
      if rsContains a ' ' then acc ++ "\"" ++ a ++ "\"" else acc ++ a)
    ""

/-- The escalation policy `try_elevate` (src/privilege.rs:7-55) with `ShellExecuteW`'s result
handle as an oracle: the request is made with verb `runas`, the current
executable, and the rebuilt argument string; it reports an error iff the
returned handle is at most 32. -/
def try_elevate (shellExecuteHandle : Int) : Except String Unit :=
  if shellExecuteHandle ≤ 32 then .error "ShellExecuteW failed" else .ok ()

/-! ## Configuration (src/config.rs) -/

/-- The configuration structure `Config` (src/config.rs:8-21). -/
structure Config where
  channels : List String
  output_file : Option String
  batch_size : Nat
deriving DecidableEq

/-- The default `default_batch_size` (src/config.rs:25-27). -/
def default_batch_size : Nat := 10

/-- A monitoring run from a configuration: `eventlog::monitor` receives
only the channel list (plus the output handle and pretty flag, which do
not carry `batch_size`); no code path reads `Config.batch_size`. -/
def monitorRun (gm : String → String → Bool) (available : List String)
    (cfg : Config) : MonitorResult :=
  monitor gm available cfg.channels

/-! ## Fixtures: the spec's concrete scenario -/

/-- The markup `<Event><Provider Name="X"/><Level>4</Level></Event>` (and its
`Level 2` sibling), as parsed: the root element `Event` with two element
children. -/
def flatEventDoc (lvl : String) : XmlNode :=
  .node "Event" []
    [.node "Provider" [("Name", "X")] [] none,
     .node "Level" [] [] (some lvl)] none

/-- The same event content nested under a wrapper child of the root, as
the native rendered format carries it
(`<Event><System>...</System></Event>`). -/
def wrappedDoc (lvl : String) : XmlNode :=
  .node "Event" []
    [.node "System" []
      [.node "Provider" [("Name", "X")] [] none,
       .node "Level" [] [] (some lvl)] none] none

/-- The scenario's formatter for the level-4 event: level formats to
`Information`, every other format kind yields nothing. -/
def fmtInfo : FmtFlag → Option String
  | .level => some "Information"
  | _ => none

/-- The scenario's formatter for the level-2 event: level formats to
`Warning`. -/
def fmtWarn : FmtFlag → Option String
  | .level => some "Warning"
  | _ => none

/-- A provider-message formatter that never yields a message. -/
def noMsg : String → Option String := fun _ => none

/-! ## Association-list lemmas -/

theorem lookupKV_insertKV (m : List (String × Json)) (k : String)
    (v : Json) (k' : String) :
    lookupKV (insertKV m k v) k' =
      if k = k' then some v else lookupKV m k' := by
  induction m with
  | nil => simp only [insertKV, lookupKV]
  | cons hd tl ih =>
    obtain ⟨k0, v0⟩ := hd
    by_cases h0 : k0 = k
    · subst h0
      by_cases h1 : k0 = k' <;> simp [insertKV, lookupKV, h1]
    · by_cases h1 : k0 = k'
      · have h2 : ¬k = k' := fun h => h0 (h1.trans h.symm)
        have h3 : ¬k' = k := fun h => h0 (h1.trans h)
        simp [insertKV, lookupKV, h0, h1, h2, h3]
      · simp [insertKV, lookupKV, h0, h1, ih]

theorem lookupKV_append (m1 m2 : List (String × Json)) (k : String) :
    lookupKV (m1 ++ m2) k =
      match lookupKV m1 k with
      | some v => some v
      | none => lookupKV m2 k := by
  induction m1 with
  | nil => simp [lookupKV]
  | cons hd tl ih =>
    obtain ⟨k0, v0⟩ := hd
    by_cases h0 : k0 = k <;> simp [lookupKV, h0, ih]

theorem lookupKV_isSome_iff (m : List (String × Json)) (k : String) :
    (lookupKV m k).isSome ↔ k ∈ keysOf m := by
  induction m with
  | nil => simp [lookupKV, keysOf]
  | cons hd tl ih =>
    obtain ⟨k0, v0⟩ := hd
    by_cases h0 : k0 = k <;> simp [lookupKV, keysOf, h0, ih]
    exact fun h => absurd h.symm h0

theorem keysOf_insertKV (m : List (String × Json)) (k : String) (v : Json) :
    keysOf (insertKV m k v) =
      if containsKV m k then keysOf m else keysOf m ++ [k] := by
  induction m with
  | nil => simp [insertKV, keysOf, containsKV, lookupKV]
  | cons hd tl ih =>
    obtain ⟨k0, v0⟩ := hd
    by_cases h0 : k0 = k <;>
      simp [insertKV, keysOf, containsKV, lookupKV, h0] at ih ⊢
    split_ifs at ih ⊢ <;> simp_all [keysOf]

theorem insertKV_of_not_contains (m : List (String × Json)) (k : String)
    (v : Json) (h : lookupKV m k = none) :
    insertKV m k v = m ++ [(k, v)] := by
  induction m with
  | nil => simp [insertKV]
  | cons hd tl ih =>
    obtain ⟨k0, v0⟩ := hd
    by_cases h0 : k0 = k <;> simp_all [insertKV, lookupKV]

/-! ## C7: empty resolution is rejected before any subscription -/

/-- C7: whenever channel resolution yields nothing, `monitor` returns
the fatal configuration error and spawns no worker (so no subscription
is ever attempted). -/
theorem C7_empty_resolution_rejected (gm : String → String → Bool)
    (available patterns : List String)
    (h : resolveChannels gm available patterns = []) :
    monitor gm available patterns =
      .err "No valid channels to subscribe to" ∧
    spawnedWorkers (monitor gm available patterns) = [] := by
  unfold monitor
  simp [h, spawnedWorkers]

/-- Witness for C7 at a concrete run: the empty live-channel list
resolves nothing and the run is rejected. -/
theorem C7_empty_resolution_rejected_witness :
    monitor (fun _ _ => false) [] ["App"] =
      .err "No valid channels to subscribe to" ∧
    spawnedWorkers (monitor (fun _ _ => false) [] ["App"]) = [] :=
  C7_empty_resolution_rejected (fun _ _ => false) [] ["App"] (by decide)

/-! ## C8: access denied triggers elevation then process exit -/

/-- C8: on an access-denied subscription failure the worker's actions
are exactly one subscription attempt, the escalation-policy invocation,
and a process exit with status 1; the trace is the same whether or not
the re-launch request succeeded, every exit in it carries a non-zero
status, and subscription is attempted exactly once (never retried). -/
theorem C8_access_denied_elevates_then_exits (elevateOk elevateOk' : Bool) :
    subscribePhase .errAccessDenied elevateOk =
      [.trySubscribe, .invokeElevate, .exitProcess 1] ∧
    subscribePhase .errAccessDenied elevateOk =
      subscribePhase .errAccessDenied elevateOk' ∧
    (∀ c, WorkerAction.exitProcess c ∈
        subscribePhase .errAccessDenied elevateOk → c ≠ 0) ∧
    (subscribePhase .errAccessDenied elevateOk).count .trySubscribe = 1 := by
  refine ⟨rfl, rfl, ?_, rfl⟩
  intro c hc
  simp [subscribePhase] at hc
  omega

/-- Witness for C8: at a concrete elevation outcome the exit status is
non-zero. -/
theorem C8_access_denied_elevates_then_exits_witness :
    subscribePhase .errAccessDenied true =
      [.trySubscribe, .invokeElevate, .exitProcess 1] ∧ (1 : Nat) ≠ 0 :=
  ⟨(C8_access_denied_elevates_then_exits true false).1,
   (C8_access_denied_elevates_then_exits true false).2.2.1 1 (by decide)⟩

/-! ## C9: a failed write stops the drain normally -/

/-- C9: if every rendered event before `e` writes successfully, `e`
renders but its write fails, then the batch loop writes exactly the
rendered prefix, closes exactly the prefix handles plus `e` itself, and
ends with the early normal return (`Ok(())`); the rest of the batch is
left unprocessed. -/
theorem C9_write_failure_stops_drain (render writeOk : Nat → Bool)
    (pre post : List Nat) (e : Nat)
    (hpre : ∀ ev ∈ pre, render ev = true → writeOk ev = true)
    (hr : render e = true) (hw : writeOk e = false) :
    processBatch render writeOk (pre ++ e :: post) =
      ⟨pre.filter render, pre ++ [e], .stoppedOk⟩ := by
  induction pre with
  | nil => simp [processBatch, hr, hw]
  | cons ev rest ih =>
    have hev := hpre ev (by simp)
    have hrest : ∀ x ∈ rest, render x = true → writeOk x = true :=
      fun x hx => hpre x (by simp [hx])
    by_cases hre : render ev = true
    · simp [processBatch, hre, hev hre, ih hrest, List.filter]
    · simp at hre
      simp [processBatch, hre, ih hrest, List.filter]

/-- Witness for C9 at a concrete batch: event 2's write fails, events
before it are written, the batch stops normally with only handles up to
2 closed. -/
theorem C9_write_failure_stops_drain_witness :
    processBatch (fun _ => true) (fun ev => ev ≠ 2) [1, 2, 3] =
      ⟨[1], [1, 2], .stoppedOk⟩ :=
  C9_write_failure_stops_drain (fun _ => true) (fun ev => ev ≠ 2)
    [1] [3] 2 (by decide) (by decide) (by decide)

/-! ## C10: batch_size never influences monitoring -/

/-- C10: two configurations agreeing on channels and output file (so
differing at most in `batch_size`) produce identical monitoring
results; the drain request size is the fixed constant 10 of the worker
(matching the config default), and every `EvtNext` call the drain loop
issues uses it — `Config.batch_size` is never consulted. -/
theorem C10_batch_size_not_consulted (gm : String → String → Bool)
    (available : List String) (c1 c2 : Config)
    (hch : c1.channels = c2.channels)
    (_hout : c1.output_file = c2.output_file) :
    monitorRun gm available c1 = monitorRun gm available c2 ∧
    drainRequest.arraySize = drainArraySize ∧
    drainArraySize = 10 ∧
    default_batch_size = 10 ∧
    ∀ rs, ∀ c ∈ drainCalls rs, c.arraySize = drainArraySize := by
  refine ⟨by simp [monitorRun, hch], rfl, rfl, rfl, ?_⟩
  intro rs
  induction rs with
  | nil => simp [drainCalls]
  | cons r rest ih =>
    intro c hc
    simp only [drainCalls] at hc
    rcases List.mem_cons.mp hc with h | h
    · simp [h, drainRequest]
    · split at h
      · exact ih c h
      · simp at h

/-- Witness for C10: two concrete configurations differing only in
`batch_size` monitor identically. -/
theorem C10_batch_size_not_consulted_witness :
    monitorRun (fun _ _ => false) ["System"]
        ⟨["System"], none, 10⟩ =
      monitorRun (fun _ _ => false) ["System"]
        ⟨["System"], none, 500⟩ :=
  (C10_batch_size_not_consulted (fun _ _ => false) ["System"]
    ⟨["System"], none, 10⟩ ⟨["System"], none, 500⟩ rfl rfl).1

/-! ## C2: channel resolution (corrected — the result is not deduplicated) -/

/-- C2 as stated is false: the pattern list `["System", "System"]`
against the live list `["System"]` resolves to `["System", "System"]`,
in which the channel name `System` appears twice — the source appends
each pattern's contribution to a `Vec` and never deduplicates. -/
theorem C2_counterexample :
    resolveChannels (fun _ _ => false) ["System"] ["System", "System"] =
      ["System", "System"] ∧
    ¬ (resolveChannels (fun _ _ => false) ["System"]
        ["System", "System"]).Nodup := by
  constructor
  · rfl
  · decide

/-- C2 amended: resolution returns the per-pattern concatenation —
each glob pattern contributes exactly the live channels it matches (in
live-list order), each literal contributes itself iff present verbatim
— without removing duplicates; a channel belongs to the result iff some
pattern contributes it, and every resolved name is a live channel. -/
theorem C2_resolution_characterization (gm : String → String → Bool)
    (available patterns : List String) :
    resolveChannels gm available patterns =
      (patterns.map (contribSpec gm available)).flatten ∧
    (∀ ch, ch ∈ resolveChannels gm available patterns ↔
      ∃ p ∈ patterns, ch ∈ contribSpec gm available p) ∧
    (∀ ch ∈ resolveChannels gm available patterns, ch ∈ available) := by
  have hgo : ∀ (ps : List String) (acc : List String),
      ps.foldl
        (fun acc p =>
          if isGlobPattern p then acc ++ available.filter (gm p)
          else if available.contains p then acc ++ [p]
          else acc) acc =
        acc ++ (ps.map (contribSpec gm available)).flatten := by
    intro ps
    induction ps with
    | nil => intro acc; simp
    | cons p rest ih =>
      intro acc
      simp only [List.foldl_cons, List.map_cons, List.flatten_cons]
      rw [show (if isGlobPattern p then acc ++ available.filter (gm p)
            else if available.contains p then acc ++ [p] else acc) =
          acc ++ contribSpec gm available p by
        unfold contribSpec; split_ifs <;> simp]
      rw [ih, List.append_assoc]
  have hmain : resolveChannels gm available patterns =
      (patterns.map (contribSpec gm available)).flatten := by
    unfold resolveChannels
    simpa using hgo patterns []
  refine ⟨hmain, ?_, ?_⟩
  · intro ch
    rw [hmain]
    simp only [List.mem_flatten, List.mem_map]
    constructor
    · rintro ⟨l, ⟨p, hp, rfl⟩, hch⟩
      exact ⟨p, hp, hch⟩
    · rintro ⟨p, hp, hch⟩
      exact ⟨contribSpec gm available p, ⟨p, hp, rfl⟩, hch⟩
  · intro ch hch
    rw [hmain] at hch
    simp only [List.mem_flatten, List.mem_map] at hch
    obtain ⟨l, ⟨p, _, rfl⟩, hch⟩ := hch
    unfold contribSpec at hch
    split_ifs at hch with h1 h2
    · exact (List.mem_filter.mp hch).1
    · rw [List.mem_singleton.mp hch]
      simpa using h2
    · simp at hch

/-- Witness for C2's amended theorem: a concrete resolved channel is
live. -/
theorem C2_resolution_characterization_witness :
    "System" ∈ ["System", "Security"] :=
  (C2_resolution_characterization (fun _ _ => false)
      ["System", "Security"] ["System"]).2.2 "System" (by decide)

/-! ## C3: the drain loop (corrected — the per-request timeout is INFINITE) -/

/-- C3 as stated is false: the drain loop's `EvtNext` request passes the
`INFINITE` timeout constant (0xFFFFFFFF), not a zero/immediate wait —
already the first request of a drain (here: one that finds no events)
carries that timeout. -/
theorem C3_counterexample :
    drainCalls [none] = [⟨10, 0xFFFFFFFF⟩] ∧ drainTimeout ≠ 0 := by
  constructor
  · rfl
  · decide

/-- C3 amended: after the blocking wait returns, every `EvtNext` request
the drain loop issues offers exactly 10 handle slots and passes the
`INFINITE` timeout; the loop processes exactly the longest prefix of
successful non-empty outcomes and stops at the first failed or empty
one; within one outer iteration the manual-reset signal is reset exactly
once, as the final step, after all requests. -/
theorem C3_drain_loop_shape (rs : List (Option (List Nat))) :
    (∀ c ∈ drainCalls rs, c.arraySize = 10 ∧ c.timeout = INFINITE) ∧
    drainBatches rs = (rs.takeWhile batchContinues).map (fun r => r.getD []) ∧
    (iterationTrace rs).getLast? = some .resetSignal ∧
    (iterationTrace rs).count .resetSignal = 1 ∧
    (iterationTrace rs).head? = some (.waitSignal INFINITE) := by
  have hcount : ∀ rs' : List (Option (List Nat)),
      (drainTrace rs').count WorkerStep.resetSignal = 0 := by
    intro rs'
    induction rs' with
    | nil => simp [drainTrace]
    | cons r rest ih =>
      by_cases h : batchContinues r <;>
        simp [drainTrace, h, ih, List.count_cons]
  refine ⟨?_, ?_, ?_, ?_, rfl⟩
  · induction rs with
    | nil => simp [drainCalls]
    | cons r rest ih =>
      intro c hc
      simp only [drainCalls] at hc
      rcases List.mem_cons.mp hc with h | h
      · simp [h, drainRequest, drainArraySize, drainTimeout]
      · split at h
        · exact ih c h
        · simp at h
  · induction rs with
    | nil => simp [drainBatches]
    | cons r rest ih =>
      by_cases h : batchContinues r <;>
        simp [drainBatches, List.takeWhile, h, ih]
  · show ((WorkerStep.waitSignal INFINITE :: drainTrace rs) ++
        [WorkerStep.resetSignal]).getLast? = some WorkerStep.resetSignal
    exact List.getLast?_concat _
  · simp [iterationTrace, List.count_append, List.count_cons, hcount rs]

/-- Witness for C3's amended theorem: the concrete single request of a
one-batch drain offers 10 slots with the `INFINITE` timeout. -/
theorem C3_drain_loop_shape_witness :
    drainRequest.arraySize = 10 ∧ drainRequest.timeout = INFINITE :=
  (C3_drain_loop_shape [some [1], none]).1 drainRequest (by decide)

/-! ## C4: leaf transcoding (corrected — attributes survive on empty text) -/

theorem atPrefix_inj (a b : String) (h : "@" ++ a = "@" ++ b) : a = b := by
  have h2 := congrArg String.data h
  rw [String.data_append, String.data_append] at h2
  exact String.ext (List.append_cancel_left h2)

theorem element_to_json_leaf (tag : String) (attrs : List (String × String))
    (text : Option String) :
    element_to_json (.node tag attrs [] text) =
      if rsTrim (text.getD "") = "" then .obj (attrMap attrs)
      else .str (rsTrim (text.getD "")) := by
  by_cases h : rsTrim (text.getD "") = "" <;>
    simp [element_to_json, childPairs, groupByTag, firstKeys, h]

theorem attrMap_go (attrs : List (String × String)) (m : List (String × Json))
    (hnd : (attrs.map Prod.fst).Nodup)
    (hfresh : ∀ kv ∈ attrs, lookupKV m ("@" ++ kv.1) = none) :
    attrs.foldl (fun m kv => insertKV m ("@" ++ kv.1) (.str kv.2)) m =
      m ++ attrs.map (fun kv => ("@" ++ kv.1, Json.str kv.2)) := by
  induction attrs generalizing m with
  | nil => simp
  | cons kv rest ih =>
    obtain ⟨k, v⟩ := kv
    simp only [List.foldl_cons, List.map_cons]
    rw [insertKV_of_not_contains _ _ _ (hfresh (k, v) (by simp))]
    rw [ih (m ++ [("@" ++ k, Json.str v)])
        (by simpa using hnd.of_cons)
        ?_]
    · simp
    · intro kv' hkv'
      rw [lookupKV_append]
      have hne : ¬("@" ++ k = "@" ++ kv'.1) := by
        intro hEq
        have : k = kv'.1 := atPrefix_inj _ _ hEq
        have hmem : kv'.1 ∈ rest.map Prod.fst :=
          List.mem_map.mpr ⟨kv', hkv', rfl⟩
        rw [this] at hnd
        exact (List.nodup_cons.mp hnd).1 hmem
      simp [hfresh kv' (by simp [hkv']), lookupKV, hne]

theorem attrMap_eq_map (attrs : List (String × String))
    (hnd : (attrs.map Prod.fst).Nodup) :
    attrMap attrs = attrs.map (fun kv => ("@" ++ kv.1, Json.str kv.2)) := by
  unfold attrMap
  simpa using attrMap_go attrs [] hnd (fun _ _ => rfl)

/-- C4 as stated is false: an element with attributes, no children and
no text transcodes to an object carrying the `@`-prefixed attributes,
not to an empty object. -/
theorem C4_counterexample :
    element_to_json (.node "E" [("a", "1"), ("b", "2")] [] none) =
      .obj [("@a", .str "1"), ("@b", .str "2")] ∧
    Json.obj [("@a", Json.str "1"), ("@b", Json.str "2")] ≠ Json.obj [] := by
  refine ⟨rfl, fun h => ?_⟩
  simp at h

/-- C4 amended: for an element with zero element children, if its
trimmed text is non-empty the transcoded value is exactly that trimmed
string and the attributes are discarded; if its trimmed text is empty
the transcoded value is the object holding exactly the `@`-prefixed
attributes (so it is the empty object only when the element has no
attributes). -/
theorem C4_leaf_transcoding (tag : String) (attrs : List (String × String))
    (text : Option String) (hnd : (attrs.map Prod.fst).Nodup) :
    (rsTrim (text.getD "") ≠ "" →
      element_to_json (.node tag attrs [] text) =
        .str (rsTrim (text.getD ""))) ∧
    (rsTrim (text.getD "") = "" →
      element_to_json (.node tag attrs [] text) =
        .obj (attrs.map (fun kv => ("@" ++ kv.1, Json.str kv.2)))) := by
  constructor
  · intro h
    rw [element_to_json_leaf, if_neg h]
  · intro h
    rw [element_to_json_leaf, if_pos h, attrMap_eq_map attrs hnd]

/-- Witness for C4's amended theorem: both branches at concrete
elements — non-empty text discards the attribute, empty text keeps both
attributes. -/
theorem C4_leaf_transcoding_witness :
    element_to_json (.node "E" [("a", "1")] [] (some "  hi ")) =
      .str "hi" ∧
    element_to_json (.node "F" [("a", "1"), ("b", "2")] [] (some "  ")) =
      .obj [("@a", .str "1"), ("@b", .str "2")] :=
  ⟨(C4_leaf_transcoding "E" [("a", "1")] (some "  hi ")
      (by decide)).1 (by decide),
   (C4_leaf_transcoding "F" [("a", "1"), ("b", "2")] (some "  ")
      (by decide)).2 (by decide)⟩

/-! ## C5: repeated sibling tags group into arrays -/

theorem childPairs_eq_map (cs : List XmlNode) :
    childPairs cs = cs.map (fun c => (c.tag, element_to_json c)) := by
  induction cs with
  | nil => rfl
  | cons c rest ih => simp [childPairs, ih]

theorem mem_firstKeys (l : List String) (t : String) :
    t ∈ firstKeys l ↔ t ∈ l := by
  induction l with
  | nil => simp [firstKeys]
  | cons x xs ih =>
    simp only [firstKeys, List.mem_cons, List.mem_filter]
    constructor
    · rintro (rfl | ⟨hm, _⟩)
      · exact .inl rfl
      · exact .inr (ih.mp hm)
    · rintro (rfl | hm)
      · exact .inl rfl
      · by_cases hx : t = x
        · exact .inl hx
        · exact .inr ⟨ih.mpr hm, by simpa using hx⟩

theorem nodup_firstKeys (l : List String) : (firstKeys l).Nodup := by
  induction l with
  | nil => simp [firstKeys]
  | cons x xs ih =>
    simp only [firstKeys]
    refine List.Nodup.cons ?_ (ih.filter _)
    intro hmem
    have := (List.mem_filter.mp hmem).2
    simp at this

theorem groupByTag_keys (ps : List (String × Json)) :
    (groupByTag ps).map Prod.fst = firstKeys (ps.map Prod.fst) := by
  unfold groupByTag
  rw [List.map_map]
  exact List.map_id _

theorem find?_eq_none_of_not_mem (gs : List (String × List Json))
    (t : String) (h : t ∉ gs.map Prod.fst) :
    gs.find? (fun g => g.1 = t) = none := by
  induction gs with
  | nil => rfl
  | cons g rest ih =>
    have h1 : ¬(g.1 = t) := fun hEq =>
      h (List.mem_map.mpr ⟨g, by simp, hEq⟩)
    have h2 : t ∉ rest.map Prod.fst := fun hm => h (by simp [hm])
    simp [List.find?, h1, ih h2]

theorem find?_map_keyed (keys : List String) (F : String → String × List Json)
    (hF : ∀ k, (F k).1 = k) (t : String) (h : t ∈ keys) :
    (keys.map F).find? (fun g => g.1 = t) = some (F t) := by
  induction keys with
  | nil => simp at h
  | cons k rest ih =>
    by_cases hk : k = t
    · subst hk; simp [List.find?, hF]
    · have ht : t ∈ rest := by
        rcases List.mem_cons.mp h with h' | h'
        · exact absurd h'.symm hk
        · exact h'
      simp [List.find?, hF, hk, ih ht]

theorem find?_groupByTag (ps : List (String × Json)) (t : String)
    (h : t ∈ ps.map Prod.fst) :
    (groupByTag ps).find? (fun g => g.1 = t) =
      some (t, (ps.filter (fun p => p.1 = t)).map Prod.snd) := by
  unfold groupByTag
  exact find?_map_keyed _ _ (fun _ => rfl) t ((mem_firstKeys _ t).mpr h)

theorem lookupKV_foldIns (gs : List (String × List Json))
    (m0 : List (String × Json)) (t : String)
    (hnd : (gs.map Prod.fst).Nodup) :
    lookupKV (gs.foldl (fun m kv => insertKV m kv.1 (mergeGroup kv.2)) m0) t =
      match gs.find? (fun g => g.1 = t) with
      | some g => some (mergeGroup g.2)
      | none => lookupKV m0 t := by
  induction gs generalizing m0 with
  | nil => simp [List.find?]
  | cons g rest ih =>
    obtain ⟨k, vs⟩ := g
    have hnd' : (rest.map Prod.fst).Nodup := by
      simpa using List.Nodup.of_cons (by simpa using hnd)
    simp only [List.foldl_cons]
    rw [ih _ hnd']
    by_cases hk : k = t
    · subst hk
      have hnot : k ∉ rest.map Prod.fst :=
        (List.nodup_cons.mp (by simpa using hnd)).1
      rw [find?_eq_none_of_not_mem rest k hnot]
      simp [List.find?, lookupKV_insertKV]
    · cases hfind : rest.find? (fun g => g.1 = t) <;>
        simp [List.find?, hk, hfind, lookupKV_insertKV]

theorem element_to_json_of_ne_nil (tag : String)
    (attrs : List (String × String)) (children : List XmlNode)
    (text : Option String) (h : children ≠ []) :
    element_to_json (.node tag attrs children text) =
      .obj ((groupByTag (childPairs children)).foldl
        (fun m kv => insertKV m kv.1 (mergeGroup kv.2)) (attrMap attrs)) := by
  cases children with
  | nil => exact absurd rfl h
  | cons c cs => simp [element_to_json]

theorem mergeGroup_of_length_ne_one (vs : List Json) (h : vs.length ≠ 1) :
    mergeGroup vs = .arr vs := by
  match vs with
  | [] => rfl
  | [v] => exact absurd rfl h
  | v :: w :: r => rfl

theorem lookupKV_element_group (tag t : String)
    (attrs : List (String × String)) (children : List XmlNode)
    (text : Option String)
    (h : children.filter (fun c => c.tag = t) ≠ []) :
    (element_to_json (.node tag attrs children text)).get t =
      some (mergeGroup
        ((children.filter (fun c => c.tag = t)).map element_to_json)) := by
  obtain ⟨c, hc⟩ : ∃ c, c ∈ children.filter (fun c => c.tag = t) := by
    cases hfil : children.filter (fun c => c.tag = t) with
    | nil => exact absurd hfil h
    | cons c cs => exact ⟨c, by simp [hfil]⟩
  have hcmem : c ∈ children := (List.mem_filter.mp hc).1
  have hct : c.tag = t := by
    have := (List.mem_filter.mp hc).2
    simpa using this
  have hne : children ≠ [] := fun hnil => by simp [hnil] at hcmem
  rw [element_to_json_of_ne_nil tag attrs children text hne]
  show lookupKV _ t = _
  rw [lookupKV_foldIns _ _ _ (by rw [groupByTag_keys]; exact nodup_firstKeys _)]
  have hmem : t ∈ (childPairs children).map Prod.fst := by
    rw [childPairs_eq_map, List.map_map]
    exact List.mem_map.mpr ⟨c, hcmem, hct⟩
  rw [find?_groupByTag _ t hmem]
  have hfilter : (childPairs children).filter (fun p => p.1 = t) =
      (children.filter (fun c => c.tag = t)).map
        (fun c => (c.tag, element_to_json c)) := by
    rw [childPairs_eq_map, List.filter_map]
    rfl
  rw [hfilter, List.map_map]
  rfl

/-- C5: in the transcoded object of any element, a tag name carried by
exactly one element child maps directly to that child's transcoded
sub-tree (no one-element array), and a tag name carried by two or more
element children maps to the array of their transcoded sub-trees in
document order. -/
theorem C5_sibling_grouping (tag t : String)
    (attrs : List (String × String)) (children : List XmlNode)
    (text : Option String) :
    (∀ c, children.filter (fun c => c.tag = t) = [c] →
      (element_to_json (.node tag attrs children text)).get t =
        some (element_to_json c)) ∧
    (2 ≤ (children.filter (fun c => c.tag = t)).length →
      (element_to_json (.node tag attrs children text)).get t =
        some (.arr ((children.filter (fun c => c.tag = t)).map
          element_to_json))) := by
  constructor
  · intro c hone
    rw [lookupKV_element_group tag t attrs children text (by simp [hone])]
    rw [hone]
    rfl
  · intro htwo
    have hne : children.filter (fun c => c.tag = t) ≠ [] := by
      intro hnil; rw [hnil] at htwo; simp at htwo
    rw [lookupKV_element_group tag t attrs children text hne]
    rw [mergeGroup_of_length_ne_one _ (by rw [List.length_map]; omega)]

/-- Witness for C5 at concrete elements: two `Data` children produce a
two-element array in document order, a single `Data` child maps to the
bare sub-tree. -/
theorem C5_sibling_grouping_witness :
    (element_to_json (.node "EventData" []
        [.node "Data" [] [] (some "1"), .node "Data" [] [] (some "2")]
        none)).get "Data" = some (.arr [.str "1", .str "2"]) ∧
    (element_to_json (.node "EventData" []
        [.node "Data" [] [] (some "1")] none)).get "Data" =
      some (.str "1") := by
  constructor
  · have := (C5_sibling_grouping "EventData" "Data" []
      [.node "Data" [] [] (some "1"), .node "Data" [] [] (some "2")]
      none).2 (by decide)
    simpa using this
  · have := (C5_sibling_grouping "EventData" "Data" []
      [.node "Data" [] [] (some "1")] none).1
      (.node "Data" [] [] (some "1")) rfl
    simpa using this

/-! ## C6: enrichment is a frame on the five named fields -/

theorem keysOf_enrichStep (fmt : FmtFlag → Option String)
    (m : List (String × Json)) (kf : String × FmtFlag) :
    keysOf (enrichStep fmt m kf) = keysOf m := by
  unfold enrichStep
  by_cases h : containsKV m kf.1 = true
  · rw [if_pos h]
    cases fmt kf.2
    · rfl
    · rw [keysOf_insertKV, if_pos h]
  · rw [if_neg h]

theorem lookupKV_enrichStep_ne (fmt : FmtFlag → Option String)
    (m : List (String × Json)) (kf : String × FmtFlag) (k : String)
    (hk : k ≠ kf.1) :
    lookupKV (enrichStep fmt m kf) k = lookupKV m k := by
  unfold enrichStep
  by_cases h : containsKV m kf.1 = true
  · rw [if_pos h]
    cases fmt kf.2
    · rfl
    · rw [lookupKV_insertKV, if_neg (fun hEq => hk hEq.symm)]
  · rw [if_neg h]

theorem lookupKV_enrichStep_self (fmt : FmtFlag → Option String)
    (m : List (String × Json)) (kf : String × FmtFlag) :
    lookupKV (enrichStep fmt m kf) kf.1 =
      match lookupKV m kf.1, fmt kf.2 with
      | some _, some s => some (.str s)
      | v, _ => v := by
  unfold enrichStep
  by_cases h : containsKV m kf.1 = true
  · rw [if_pos h]
    obtain ⟨v, hv⟩ := Option.isSome_iff_exists.mp (by simpa [containsKV] using h)
    cases hf : fmt kf.2
    · simp [hv, hf]
    · rw [lookupKV_insertKV, if_pos rfl]
      simp [hv, hf]
  · rw [if_neg h]
    have hv : lookupKV m kf.1 = none := by
      rcases heq : lookupKV m kf.1 with _ | v
      · rfl
      · exact absurd (by simp [containsKV, heq]) h
    simp [hv]

theorem enrichObj_unfold (fmt : FmtFlag → Option String)
    (m : List (String × Json)) :
    enrichObj fmt m =
      enrichStep fmt (enrichStep fmt (enrichStep fmt (enrichStep fmt m
        ("Keywords", .keyword)) ("Level", .level)) ("Task", .task))
        ("Opcode", .opcode) := rfl

theorem keysOf_enrichObj (fmt : FmtFlag → Option String)
    (m : List (String × Json)) :
    keysOf (enrichObj fmt m) = keysOf m := by
  rw [enrichObj_unfold]
  rw [keysOf_enrichStep, keysOf_enrichStep, keysOf_enrichStep,
    keysOf_enrichStep]

theorem lookupKV_enrichObj_ne (fmt : FmtFlag → Option String)
    (m : List (String × Json)) (k : String)
    (h : k ∉ ["Keywords", "Level", "Task", "Opcode"]) :
    lookupKV (enrichObj fmt m) k = lookupKV m k := by
  simp only [List.mem_cons, List.not_mem_nil, or_false, not_or] at h
  obtain ⟨h1, h2, h3, h4⟩ := h
  rw [enrichObj_unfold]
  rw [lookupKV_enrichStep_ne _ _ _ _ h4, lookupKV_enrichStep_ne _ _ _ _ h3,
    lookupKV_enrichStep_ne _ _ _ _ h2, lookupKV_enrichStep_ne _ _ _ _ h1]

theorem lookupKV_enrichObj_at (fmt : FmtFlag → Option String)
    (m : List (String × Json)) (k : String) (f : FmtFlag)
    (hkf : (k, f) ∈ enrichKeys) :
    lookupKV (enrichObj fmt m) k =
      match lookupKV m k, fmt f with
      | some _, some s => some (.str s)
      | v, _ => v := by
  rw [enrichObj_unfold]
  fin_cases hkf
  · rw [lookupKV_enrichStep_ne _ _ _ _ (by decide),
      lookupKV_enrichStep_ne _ _ _ _ (by decide),
      lookupKV_enrichStep_ne _ _ _ _ (by decide)]
    exact lookupKV_enrichStep_self fmt m ("Keywords", .keyword)
  · rw [lookupKV_enrichStep_ne _ _ _ _ (by decide),
      lookupKV_enrichStep_ne _ _ _ _ (by decide),
      lookupKV_enrichStep_self fmt _ ("Level", .level),
      lookupKV_enrichStep_ne _ _ _ _ (by decide)]
  · rw [lookupKV_enrichStep_ne _ _ _ _ (by decide),
      lookupKV_enrichStep_self fmt _ ("Task", .task),
      lookupKV_enrichStep_ne _ _ _ _ (by decide),
      lookupKV_enrichStep_ne _ _ _ _ (by decide)]
  · rw [lookupKV_enrichStep_self fmt _ ("Opcode", .opcode),
      lookupKV_enrichStep_ne _ _ _ _ (by decide),
      lookupKV_enrichStep_ne _ _ _ _ (by decide),
      lookupKV_enrichStep_ne _ _ _ _ (by decide)]

theorem enrichPipeline_obj (fmt : FmtFlag → Option String)
    (fmtMsg : String → Option String) (m : List (String × Json)) :
    enrichPipeline fmt fmtMsg (.obj m) = .obj (enrichObj fmt m) ∨
    ∃ msg, enrichPipeline fmt fmtMsg (.obj m) =
      .obj (insertKV (enrichObj fmt m) "Message" (.str msg)) := by
  rcases hpn : (((Json.obj m).get "Provider").bind
      (fun p => p.get "@Name")).bind Json.asStr with _ | prov
  · exact .inl (by simp [enrichPipeline, hpn, enrich_metadata])
  · rcases hmsg : fmtMsg prov with _ | msg
    · exact .inl (by simp [enrichPipeline, hpn, hmsg, enrich_metadata])
    · exact .inr ⟨msg, by simp [enrichPipeline, hpn, hmsg, enrich_metadata]⟩

/-- C6: on any pre-enrichment record that is a JSON object, the full
enrichment (the four-field metadata pass plus the `Message` step of the
renderer) adds no key other than `Message` and removes none (the
metadata pass alone preserves the key list exactly); every key outside
`Keywords`/`Level`/`Task`/`Opcode`/`Message` keeps its exact value; and
each of the four fixed keys, when present, is replaced precisely when
the formatter yields text and is left untouched when the formatter
fails or yields none. -/
theorem C6_enrichment_frame (fmt : FmtFlag → Option String)
    (fmtMsg : String → Option String) (m : List (String × Json)) :
    keysOf (enrichObj fmt m) = keysOf m ∧
    (∀ k, k ∉ ["Keywords", "Level", "Task", "Opcode", "Message"] →
      (enrichPipeline fmt fmtMsg (.obj m)).get k = lookupKV m k) ∧
    (∀ k f, (k, f) ∈ enrichKeys →
      (enrichPipeline fmt fmtMsg (.obj m)).get k =
        match lookupKV m k, fmt f with
        | some _, some s => some (.str s)
        | v, _ => v) ∧
    (∀ k, ((enrichPipeline fmt fmtMsg (.obj m)).get k).isSome →
      k ∈ keysOf m ∨ k = "Message") ∧
    (∀ k, k ∈ keysOf m →
      ((enrichPipeline fmt fmtMsg (.obj m)).get k).isSome) := by
  have hget : ∀ k, k ≠ "Message" →
      (enrichPipeline fmt fmtMsg (.obj m)).get k =
        lookupKV (enrichObj fmt m) k := by
    intro k hk
    rcases enrichPipeline_obj fmt fmtMsg m with h | ⟨msg, h⟩
    · rw [h]; rfl
    · rw [h]
      show lookupKV _ k = _
      rw [lookupKV_insertKV, if_neg (fun hEq => hk hEq.symm)]
  refine ⟨keysOf_enrichObj fmt m, ?_, ?_, ?_, ?_⟩
  · intro k hk
    have hkM : k ≠ "Message" := by
      intro h; exact hk (by simp [h])
    have hk4 : k ∉ ["Keywords", "Level", "Task", "Opcode"] := by
      intro h; apply hk
      simp only [List.mem_cons, List.not_mem_nil, or_false] at h ⊢
      tauto
    rw [hget k hkM]
    exact lookupKV_enrichObj_ne fmt m k hk4
  · intro k f hkf
    have hkM : k ≠ "Message" := by
      fin_cases hkf <;> decide
    rw [hget k hkM]
    exact lookupKV_enrichObj_at fmt m k f hkf
  · intro k hsome
    by_cases hk : k = "Message"
    · exact .inr hk
    · rw [hget k hk] at hsome
      exact .inl ((keysOf_enrichObj fmt m) ▸
        (lookupKV_isSome_iff (enrichObj fmt m) k).mp hsome)
  · intro k hk
    by_cases hkM : k = "Message"
    · subst hkM
      rcases enrichPipeline_obj fmt fmtMsg m with h | ⟨msg, h⟩
      · rw [h]
        show (lookupKV (enrichObj fmt m) "Message").isSome
        rw [lookupKV_isSome_iff, keysOf_enrichObj]
        exact hk
      · rw [h]
        show (lookupKV (insertKV (enrichObj fmt m) "Message"
          (.str msg)) "Message").isSome
        rw [lookupKV_insertKV, if_pos rfl]
        rfl
    · rw [hget k hkM, lookupKV_isSome_iff, keysOf_enrichObj]
      exact hk

/-- Witness for C6 at a concrete record: a field outside the five named
ones keeps its exact value through enrichment, and a present `Level`
field is replaced by the formatted text. -/
theorem C6_enrichment_frame_witness :
    (enrichPipeline fmtInfo noMsg
        (.obj [("EventID", .str "7"), ("Level", .str "4")])).get "EventID" =
      some (.str "7") ∧
    (enrichPipeline fmtInfo noMsg
        (.obj [("EventID", .str "7"), ("Level", .str "4")])).get "Level" =
      some (.str "Information") := by
  constructor
  · have := (C6_enrichment_frame fmtInfo noMsg
      [("EventID", .str "7"), ("Level", .str "4")]).2.1 "EventID" (by decide)
    rw [this]
    rfl
  · have := (C6_enrichment_frame fmtInfo noMsg
      [("EventID", .str "7"), ("Level", .str "4")]).2.2.1 "Level"
      FmtFlag.level (by decide)
    rw [this]
    rfl

/-! ## C1: the rendered record (corrected — the scenario's flat markup
loses its Level field to the wrapper-skipping rule) -/

/-- C1 as stated is false: for the scenario's markup
`<Event><Provider Name="X"/><Level>4</Level></Event>` the record's
top-level value is the transcoding of the *root element's* first element
child — the `Provider` element — so the rendered line is exactly
`{"@Name":"X"}`: it does not contain the key `Level` (and therefore not
every top-level field of the event survives). -/
theorem C1_counterexample :
    render_event fmtInfo noMsg (some (flatEventDoc "4")) =
      some (.obj [("@Name", .str "X")]) ∧
    (Json.obj [("@Name", Json.str "X")]).get "Level" = none := by
  exact ⟨rfl, rfl⟩

/-- C1 amended: the record's top-level value is the first element child
of the *root element* if one exists, otherwise the root element itself.
Markup whose root's first element child carries the event fields (as the
native format's `<Event><System>...</System>...</Event>` does) renders,
through the transcoder-plus-enrichment pipeline with the scenario's
formatters, to one JSON object per event containing `Level` with the
formatted value (`Information` for level 4, `Warning` for level 2) and
every other field of that child; for the scenario's flat markup the
record is the transcoding of the `Provider` child alone, `{"@Name":"X"}`,
with no `Level` key; a childless root is transcoded itself. -/
theorem C1_pipeline_records :
    render_event fmtInfo noMsg (some (wrappedDoc "4")) =
      some (.obj [("Provider", .obj [("@Name", .str "X")]),
        ("Level", .str "Information")]) ∧
    render_event fmtWarn noMsg (some (wrappedDoc "2")) =
      some (.obj [("Provider", .obj [("@Name", .str "X")]),
        ("Level", .str "Warning")]) ∧
    render_event fmtInfo noMsg (some (flatEventDoc "4")) =
      some (.obj [("@Name", .str "X")]) ∧
    render_event fmtInfo noMsg
        (some (.node "Event" [("Qualifiers", "16384")] [] (some " x "))) =
      some (.str "x") ∧
    render_event fmtInfo noMsg none = none := by
  exact ⟨rfl, rfl, rfl, rfl, rfl⟩

end WinEventLog
